import Mathlib

/-!
# Chronos: the Visual Micro compatibility header

The repository's single source file is `Chronos/Visual Micro/.Chronos.vsarduino.h`,
a header of `#define` directives, one typedef, one function definition, twelve
function prototypes and three `#include` lines.  It has no functions to run; what it
does, it does to the C++ front end that reads it.  The development therefore embeds

* the header itself, line by line, as text (`headerText`);
* the part of C++ translation the header exercises: lexing a line into preprocessing
  tokens, recognising directives, maintaining the table of definitions, expanding
  names against that table with rescanning, and reading the simple declarations that
  remain.

Everything below is computed from `headerText`.
-/

namespace Chronos

/-! ## The source text -/

/-- The 44 lines of `.Chronos.vsarduino.h`, verbatim (trailing blanks included). -/
def headerText : List String :=
  [ "//Board = Arduino Uno",
    "#define ARDUINO 101",
    "#define __AVR_ATmega328P__",
    "#define F_CPU 16000000L",
    "#define __AVR__",
    "#define __cplusplus",
    "#define __attribute__(x)",
    "#define __inline__",
    "#define __asm__(x)",
    "#define __extension__",
    "#define __ATTR_PURE__",
    "#define __ATTR_CONST__",
    "#define __inline__",
    "#define __asm__ ",
    "#define __volatile__",
    "#define __builtin_va_list",
    "#define __builtin_va_start",
    "#define __builtin_va_end",
    "#define __DOXYGEN__",
    "#define prog_void",
    "#define PGM_VOID_P int",
    "#define NOINLINE __attribute__((noinline))",
    "",
    "typedef unsigned char byte;",
    "extern \"C\" void __cxa_pure_virtual() \x7b\x7d",
    "",
    "//already defined in arduno.h",
    "//already defined in arduno.h",
    "void NextMode(int nextmode);",
    "void LEDDrawArray(char bitmap[], byte offsetrow, byte offsetcol);",
    "boolean IsNight();",
    "void SayTemperature();",
    "void SayTime();",
    "void ShowTime();",
    "void ShowTemperature();",
    "void loadFont(byte fontindex);",
    "void loadSentence(byte sentenceindex);",
    "void EEPROMClearMemory();",
    "void EEPROMWriteLong(int p_address, long p_value);",
    "long EEPROMReadLong(int p_address);",
    "",
    "#include \"C:\\Personal\\arduino-1.0.1\\hardware\\arduino\\variants\\standard\\pins_arduino.h\" ",
    "#include \"C:\\Personal\\arduino-1.0.1\\hardware\\arduino\\cores\\arduino\\arduino.h\"",
    "#include \"C:\\Users\\graham.richter\\Dropbox\\Graham\\Projects\\Arduino\\Chronos\\Chronos\\Chronos.ino\"" ]

/-! ## Lexing a line -/

/-- Preprocessing tokens.  `ws` stands for one blank character; it is kept by the lexer
because a `#define` is function-like only when `(` follows the name with no blank. -/
inductive Tok where
  | ident (name : String)
  | number (text : String)
  | strLit (text : String)
  | punct (c : Char)
  | ws
deriving DecidableEq, Repr

/-- Characters of identifiers and preprocessing numbers. -/
def isIdentChar (c : Char) : Bool := c.isAlphanum || c == '_'

/-- The double quote. -/
def dquote : Char := Char.ofNat 34

/-- The backslash. -/
def bslash : Char := Char.ofNat 92

/-- Close the word being read: a word that starts with a digit is a number,
any other word an identifier. -/
def flushWord (cur : List Char) (out : List Tok) : List Tok :=
  match cur with
  | [] => out
  | c :: _ =>
    if c.isDigit then out ++ [Tok.number (String.mk cur)]
    else out ++ [Tok.ident (String.mk cur)]

/-- What the lexer is in the middle of: code (with the word read so far), a string
literal (with the characters read so far), or a string literal right after a
backslash. -/
inductive LexMode where
  | code (cur : List Char)
  | str (acc : List Char)
  | esc (acc : List Char)

/-- Lex one line.  A `//` comment ends the line; a string literal runs to the next
unescaped double quote. -/
def lexLine : List Char → LexMode → List Tok → List Tok
  | [], LexMode.code cur, out => flushWord cur out
  | [], LexMode.str acc, out => out ++ [Tok.strLit (String.mk acc)]
  | [], LexMode.esc acc, out => out ++ [Tok.strLit (String.mk acc)]
  | c :: cs, LexMode.esc acc, out => lexLine cs (LexMode.str (acc ++ [c])) out
  | c :: cs, LexMode.str acc, out =>
    if c == dquote then lexLine cs (LexMode.code []) (out ++ [Tok.strLit (String.mk acc)])
    else if c == bslash then lexLine cs (LexMode.esc (acc ++ [c])) out
    else lexLine cs (LexMode.str (acc ++ [c])) out
  | c :: cs, LexMode.code cur, out =>
    if isIdentChar c then lexLine cs (LexMode.code (cur ++ [c])) out
    else if c == dquote then lexLine cs (LexMode.str []) (flushWord cur out)
    else if c == '/' && cs.head? == some '/' then flushWord cur out
    else if c.isWhitespace then lexLine cs (LexMode.code []) (flushWord cur out ++ [Tok.ws])
    else lexLine cs (LexMode.code []) (flushWord cur out ++ [Tok.punct c])

/-- Tokens of a line of text. -/
def lex (s : String) : List Tok := lexLine s.toList (LexMode.code []) []

/-! ## Directives -/

/-- A definition introduced by `#define`: `params = none` for an object-like
definition, `some ps` for a function-like one. -/
structure Defn where
  name : String
  params : Option (List String)
  body : List Tok
deriving DecidableEq, Repr

/-- A classified source line. -/
inductive Line where
  | define (d : Defn)
  | incl (target : List Tok)
  | directive (toks : List Tok)
  | text (toks : List Tok)
deriving DecidableEq, Repr

/-- Skip leading blanks. -/
def dropWs : List Tok → List Tok
  | Tok.ws :: ts => dropWs ts
  | ts => ts

/-- Remove every blank. -/
def noWs : List Tok → List Tok
  | [] => []
  | Tok.ws :: ts => noWs ts
  | t :: ts => t :: noWs ts

/-- Read the parameter names of a function-like definition, up to the closing
parenthesis; returns the names and the tokens after the parenthesis. -/
def parseParams : List Tok → List String → Option (List String × List Tok)
  | [], _ => none
  | Tok.ident p :: rest, acc => parseParams rest (acc ++ [p])
  | Tok.ws :: rest, acc => parseParams rest acc
  | Tok.punct c :: rest, acc =>
    if c == ')' then some (acc, rest)
    else if c == ',' then parseParams rest acc
    else none
  | _ :: _, _ => none

/-- Read what follows `#define`. -/
def parseDefine (ts all : List Tok) : Line :=
  match dropWs ts with
  | Tok.ident name :: Tok.punct p :: rest =>
    if p == '(' then
      match parseParams rest [] with
      | some (ps, body) => Line.define ⟨name, some ps, noWs body⟩
      | none => Line.directive (noWs all)
    else Line.define ⟨name, none, noWs (Tok.punct p :: rest)⟩
  | Tok.ident name :: rest => Line.define ⟨name, none, noWs rest⟩
  | _ => Line.directive (noWs all)

/-- Read what follows `#`. -/
def parseDirective (ts all : List Tok) : Line :=
  match dropWs ts with
  | Tok.ident kw :: rest =>
    if kw == "define" then parseDefine rest all
    else if kw == "include" then Line.incl (noWs rest)
    else Line.directive (noWs all)
  | _ => Line.directive (noWs all)

/-- Classify a lexed line: a line whose first token is `#` is a directive. -/
def classify (ts : List Tok) : Line :=
  match dropWs ts with
  | Tok.punct c :: rest => if c == '#' then parseDirective rest ts else Line.text (noWs ts)
  | _ => Line.text (noWs ts)

/-- The header as numbered, classified lines (line numbers start at 1). -/
def headerLines : List (Nat × Line) :=
  (headerText.map fun s => classify (lex s)).enumFrom 1

/-- The `#define` directives of a list of lines, in order, with their line numbers. -/
def defines : List (Nat × Line) → List (Nat × Defn)
  | [] => []
  | (n, Line.define d) :: ls => (n, d) :: defines ls
  | _ :: ls => defines ls

/-! ## The table of definitions -/

/-- Modelled from the spec: the names "reserved as predefined by the language" are not
listed anywhere in the repository; they are the predefined names of the C++ standard's
clause on predefined names, together with the identifier `defined`, none of which may
be the subject of `#define`. -/
def predefinedNames : List String :=
  [ "__cplusplus", "__DATE__", "__FILE__", "__LINE__", "__STDC_HOSTED__", "__TIME__",
    "__STDC__", "__STDC_VERSION__", "__STDC_MB_MIGHT_NEQ_WC__", "__STDC_ISO_10646__",
    "__STDCPP_STRICT_POINTER_SAFETY__", "__STDCPP_THREADS__",
    "__STDCPP_DEFAULT_NEW_ALIGNMENT__", "defined" ]

/-- The definition in force for a name, if any. -/
def lookupDef : List Defn → String → Option Defn
  | [], _ => none
  | d :: ds, n => if d.name == n then some d else lookupDef ds n

/-- Remove the definition of a name. -/
def removeDef : List Defn → String → List Defn
  | [], _ => []
  | d :: ds, n => if d.name == n then removeDef ds n else d :: removeDef ds n

/-- State of the preprocessor: the definitions in force (latest first), the
redefinitions that differ from the definition then in force, and the definitions of
predefined names, the last two with the line they occur on. -/
structure PPState where
  table : List Defn
  clashes : List (Nat × String)
  reserved : List (Nat × String)
deriving DecidableEq, Repr

/-- The state before the first line. -/
def PPState.init : PPState := ⟨[], [], []⟩

/-- Process one `#define`.  A redefinition is accepted silently when kind, parameters
and replacement list are those of the definition in force and recorded as a clash
otherwise; either way the new definition is the one in force afterwards. -/
def installDefine (st : PPState) (line : Nat) (d : Defn) : PPState :=
  { table := d :: removeDef st.table d.name,
    clashes :=
      match lookupDef st.table d.name with
      | some e => if e = d then st.clashes else st.clashes ++ [(line, d.name)]
      | none => st.clashes,
    reserved :=
      if d.name ∈ predefinedNames then st.reserved ++ [(line, d.name)] else st.reserved }

/-- Process `#define` directives in order. -/
def runDefines : List (Nat × Defn) → PPState → PPState
  | [], st => st
  | (n, d) :: ds, st => runDefines ds (installDefine st n d)

/-- The state the header leaves after its last `#define`. -/
def headerState : PPState := runDefines (defines headerLines) PPState.init

/-! ## Expansion -/

/-- A token with its hide set: the names that may no longer be replaced in it. -/
abbrev HTok := Tok × List String

/-- Source tokens start with an empty hide set. -/
def plain : List Tok → List HTok
  | [] => []
  | t :: ts => (t, []) :: plain ts

/-- Forget the hide sets. -/
def strip : List HTok → List Tok
  | [] => []
  | (t, _) :: ts => t :: strip ts

/-- Add names to every hide set. -/
def addHide (hs : List String) : List HTok → List HTok
  | [] => []
  | (t, h) :: ts => (t, h ++ hs) :: addHide hs ts

/-- Names common to two hide sets. -/
def common (a b : List String) : List String := a.filter fun n => b.contains n

/-- Collect the arguments of an invocation.  The input starts right after the opening
parenthesis; `depth` counts the parentheses open inside the current argument.  Returns
the arguments, the hide set of the closing parenthesis and the tokens after it. -/
def scanArgs : List HTok → Nat → List HTok → List (List HTok) →
    Option (List (List HTok) × List String × List HTok)
  | [], _, _, _ => none
  | (Tok.punct c, hs) :: ts, depth, cur, acc =>
    if c == '(' then scanArgs ts (depth + 1) (cur ++ [(Tok.punct c, hs)]) acc
    else if c == ')' then
      match depth with
      | 0 => some (acc ++ [cur], hs, ts)
      | d + 1 => scanArgs ts d (cur ++ [(Tok.punct c, hs)]) acc
    else if c == ',' && depth == 0 then scanArgs ts 0 [] (acc ++ [cur])
    else scanArgs ts depth (cur ++ [(Tok.punct c, hs)]) acc
  | t :: ts, depth, cur, acc => scanArgs ts depth (cur ++ [t]) acc

/-- Pair parameters with arguments; the number of arguments must be the number of
parameters (an empty pair of parentheses passes no argument to a definition without
parameters). -/
def bindArgs (params : List String) (args : List (List HTok)) :
    Option (List (String × List HTok)) :=
  match params, args with
  | [], [[]] => some []
  | _, _ => if params.length = args.length then some (params.zip args) else none

/-- The argument bound to a name. -/
def boundArg : List (String × List HTok) → String → Option (List HTok)
  | [], _ => none
  | (p, a) :: bs, n => if p == n then some a else boundArg bs n

/-- Build the replacement of an invocation: a parameter is replaced by its argument,
fully expanded first; every other token of the replacement list is copied.  (The
operators `#` and `##` are not interpreted; no replacement list of the header has
them.) -/
def substitute (expandArg : List HTok → Option (List HTok))
    (binding : List (String × List HTok)) : List Tok → Option (List HTok)
  | [] => some []
  | Tok.ident n :: ts =>
    match boundArg binding n with
    | some a =>
      match expandArg a, substitute expandArg binding ts with
      | some ea, some r => some (ea ++ r)
      | _, _ => none
    | none =>
      match substitute expandArg binding ts with
      | some r => some ((Tok.ident n, []) :: r)
      | none => none
  | t :: ts =>
    match substitute expandArg binding ts with
    | some r => some ((t, []) :: r)
    | none => none

/-- Put a token in front of an expansion. -/
def emit (t : HTok) : Option (List HTok) → Option (List HTok)
  | some r => some (t :: r)
  | none => none

/-- Expand a token sequence against a table, rescanning every replacement together
with the tokens that follow it.  A name is not replaced inside its own replacement
(hide sets).  A function-like name not followed by `(` is left alone.  The result is
`none` when an invocation is not closed, has the wrong number of arguments, or the
fuel (one unit per token examined) runs out. -/
def expand (tbl : List Defn) : Nat → List HTok → Option (List HTok)
  | _, [] => some []
  | 0, _ :: _ => none
  | fuel + 1, (Tok.ident n, hs) :: rest =>
    if hs.contains n then emit (Tok.ident n, hs) (expand tbl fuel rest)
    else
      match lookupDef tbl n with
      | none => emit (Tok.ident n, hs) (expand tbl fuel rest)
      | some d =>
        match d.params with
        | none => expand tbl fuel (addHide (n :: hs) (plain d.body) ++ rest)
        | some ps =>
          match rest with
          | (Tok.punct c, hc) :: rest1 =>
            if c == '(' then
              match scanArgs rest1 0 [] [] with
              | some (args, hr, rest2) =>
                match bindArgs ps args with
                | some b =>
                  match substitute (expand tbl fuel) b d.body with
                  | some body => expand tbl fuel (addHide (n :: common hs hr) body ++ rest2)
                  | none => none
                | none => none
              | none => none
            else emit (Tok.ident n, hs) (expand tbl fuel ((Tok.punct c, hc) :: rest1))
          | _ => emit (Tok.ident n, hs) (expand tbl fuel rest)
  | fuel + 1, t :: rest => emit t (expand tbl fuel rest)

/-- Expand source tokens and forget the hide sets. -/
def expandToks (tbl : List Defn) (fuel : Nat) (ts : List Tok) : Option (List Tok) :=
  match expand tbl fuel (plain ts) with
  | some r => some (strip r)
  | none => none

/-! ## Translating the header up to its `#include` lines -/

/-- Fuel given to the expansion of one line of text. -/
def lineFuel (ts : List Tok) : Nat := 2 * ts.length + 64

/-- Attach a line number to every token. -/
def onLine (n : Nat) : List Tok → List (Nat × Tok)
  | [] => []
  | t :: ts => (n, t) :: onLine n ts

/-- Process the lines in order: a `#define` updates the table, a line of text is
expanded against the table then in force and appended to the output.  The three
included files are not part of the repository, so translation stops at the first
`#include`.  The result is `none` when the expansion of a line fails. -/
def translate : List (Nat × Line) → PPState → List (Nat × Tok) →
    Option (PPState × List (Nat × Tok))
  | [], st, out => some (st, out)
  | (n, Line.define d) :: ls, st, out => translate ls (installDefine st n d) out
  | (_, Line.incl _) :: _, st, out => some (st, out)
  | (_, Line.directive _) :: ls, st, out => translate ls st out
  | (n, Line.text ts) :: ls, st, out =>
    match expandToks st.table (lineFuel ts) ts with
    | some r => translate ls st (out ++ onLine n r)
    | none => none

/-- The header's tokens after preprocessing, up to the first `#include`. -/
def headerTokens : Option (List (Nat × Tok)) :=
  match translate headerLines PPState.init [] with
  | some (_, out) => some out
  | none => none

/-! ## Declarations -/

/-- The opening brace. -/
def lbrace : Char := Char.ofNat 123

/-- The closing brace. -/
def rbrace : Char := Char.ofNat 125

/-- A type as written: its specifier words, and whether `[]` follows the declarator. -/
structure Ty where
  specs : List String
  array : Bool
deriving DecidableEq, Repr

/-- A function parameter. -/
structure Param where
  ty : Ty
  name : Option String
deriving DecidableEq, Repr

/-- A declaration at file scope.  `other` keeps what the reader below does not
understand. -/
inductive Decl where
  | typedef (line : Nat) (name : String) (ty : Ty)
  | proto (line : Nat) (ret : Ty) (name : String) (params : List Param)
  | fundef (line : Nat) (ret : Ty) (name : String) (params : List Param) (body : List Tok)
  | other (line : Nat) (toks : List Tok)
deriving DecidableEq, Repr

/-- The pieces of one declaration: the line of its first token, the tokens before the
terminating `;` or the body, and the tokens of the body when there is one. -/
structure Chunk where
  line : Nat
  head : List Tok
  body : Option (List Tok)
  closed : Bool
deriving DecidableEq, Repr

/-- Close the chunk being read; a chunk without tokens and without body (a stray `;`)
is dropped. -/
def closeChunk (cur : List (Nat × Tok)) (body : Option (List Tok)) (closed : Bool)
    (out : List Chunk) : List Chunk :=
  match cur with
  | [] =>
    match body with
    | some b => out ++ [⟨0, [], some b, closed⟩]
    | none => out
  | (l, t) :: rest => out ++ [⟨l, t :: rest.map Prod.snd, body, closed⟩]

/-- Cut the token stream into declarations: at brace depth 0 a `;` ends a declaration
and an opening brace starts a body, which ends at the matching closing brace. -/
def splitDecls : List (Nat × Tok) → List (Nat × Tok) → Nat → List Tok → List Chunk →
    List Chunk
  | [], cur, 0, _, out => closeChunk cur none false out
  | [], cur, _ + 1, body, out => closeChunk cur (some body) false out
  | (l, t) :: ts, cur, 0, _, out =>
    if t = Tok.punct ';' then splitDecls ts [] 0 [] (closeChunk cur none true out)
    else if t = Tok.punct lbrace then splitDecls ts cur 1 [] out
    else splitDecls ts (cur ++ [(l, t)]) 0 [] out
  | (_, t) :: ts, cur, d + 1, body, out =>
    if t = Tok.punct lbrace then splitDecls ts cur (d + 2) (body ++ [t]) out
    else if t = Tok.punct rbrace then
      match d with
      | 0 => splitDecls ts [] 0 [] (closeChunk cur (some body) true out)
      | e + 1 => splitDecls ts cur (e + 1) (body ++ [t]) out
    else splitDecls ts cur (d + 1) (body ++ [t]) out

/-- The words that name the built-in types of C++. -/
def builtinSpecifiers : List String :=
  [ "void", "bool", "char", "wchar_t", "char16_t", "char32_t", "short", "int", "long",
    "signed", "unsigned", "float", "double" ]

/-- The names of a run of identifiers; `none` when another token occurs. -/
def identsOf : List Tok → Option (List String)
  | [] => some []
  | Tok.ident n :: ts =>
    match identsOf ts with
    | some ns => some (n :: ns)
    | none => none
  | _ :: _ => none

/-- Split off a trailing `[]`. -/
def splitArray (ts : List Tok) : List Tok × Bool :=
  match ts.reverse with
  | Tok.punct c :: Tok.punct b :: rest =>
    if c == ']' && b == '[' then (rest.reverse, true) else (ts, false)
  | _ => (ts, false)

/-- Read `specifiers declarator` where the declarator is a plain name, optionally
followed by `[]`, or absent.  With several words the last one is the declared name
unless it is a built-in specifier; a single word is a type without a name. -/
def parseTypeAndName (ts : List Tok) : Option (Ty × Option String) :=
  match identsOf (splitArray ts).1 with
  | none => none
  | some [] => none
  | some [w] => some (⟨[w], (splitArray ts).2⟩, none)
  | some ws =>
    match ws.getLast? with
    | some w =>
      if builtinSpecifiers.contains w then some (⟨ws, (splitArray ts).2⟩, none)
      else some (⟨ws.dropLast, (splitArray ts).2⟩, some w)
    | none => none

/-- Split a token sequence at its commas. -/
def splitCommas : List Tok → List Tok → List (List Tok)
  | [], cur => [cur]
  | t :: ts, cur =>
    if t = Tok.punct ',' then cur :: splitCommas ts [] else splitCommas ts (cur ++ [t])

/-- Read each parameter. -/
def parseEach : List (List Tok) → Option (List Param)
  | [] => some []
  | p :: ps =>
    match parseTypeAndName p, parseEach ps with
    | some (ty, name), some rest => some (⟨ty, name⟩ :: rest)
    | _, _ => none

/-- Read a parameter list (the tokens between the parentheses); `()` and `(void)`
declare no parameter. -/
def parseParamList (ts : List Tok) : Option (List Param) :=
  if ts = [] then some []
  else if ts = [Tok.ident "void"] then some []
  else parseEach (splitCommas ts [])

/-- Drop a leading linkage specification (`extern "C"`). -/
def dropLinkage : List Tok → List Tok
  | Tok.ident w :: Tok.strLit l :: rest =>
    if w == "extern" then rest else Tok.ident w :: Tok.strLit l :: rest
  | ts => ts

/-- The tokens before the first `(` and the tokens from it on. -/
def splitAtParen : List Tok → List Tok → List Tok × List Tok
  | [], pre => (pre, [])
  | t :: ts, pre => if t = Tok.punct '(' then (pre, t :: ts) else splitAtParen ts (pre ++ [t])

/-- Read a function declarator `specifiers name ( parameters )`. -/
def parseFunction (ts : List Tok) : Option (Ty × String × List Param) :=
  match splitAtParen ts [] with
  | (pre, _ :: inner) =>
    match inner.getLast? with
    | some close =>
      if close = Tok.punct ')' then
        match parseTypeAndName pre, parseParamList inner.dropLast with
        | some (ret, some name), some ps => some (ret, name, ps)
        | _, _ => none
      else none
    | none => none
  | (_, []) => none

/-- Read one declaration. -/
def parseChunk (c : Chunk) : Decl :=
  if c.closed then
    match dropLinkage c.head, c.body with
    | Tok.ident w :: rest, none =>
      if w == "typedef" then
        match parseTypeAndName rest with
        | some (ty, some name) => Decl.typedef c.line name ty
        | _ => Decl.other c.line c.head
      else
        match parseFunction (Tok.ident w :: rest) with
        | some (ret, name, ps) => Decl.proto c.line ret name ps
        | none => Decl.other c.line c.head
    | ts, some body =>
      match parseFunction ts with
      | some (ret, name, ps) => Decl.fundef c.line ret name ps body
      | none => Decl.other c.line c.head
    | _, none => Decl.other c.line c.head
  else Decl.other c.line c.head

/-- Read declarations from a token stream. -/
def parseDecls (ts : List (Nat × Tok)) : List Decl :=
  (splitDecls ts [] 0 [] []).map parseChunk

/-- The declarations the header makes before its first `#include`. -/
def headerDecls : Option (List Decl) :=
  match headerTokens with
  | some ts => some (parseDecls ts)
  | none => none

/-! ## Signatures, definitions, aliases and type uses -/

/-- A function signature: name, ordered parameter types, return type. -/
structure Signature where
  name : String
  params : List Ty
  ret : Ty
deriving DecidableEq, Repr

/-- The types of a parameter list. -/
def paramTypes : List Param → List Ty
  | [] => []
  | p :: ps => p.ty :: paramTypes ps

/-- The signatures of the functions that are declared without a body. -/
def prototypes : List Decl → List Signature
  | [] => []
  | Decl.proto _ ret name ps :: ds => ⟨name, paramTypes ps, ret⟩ :: prototypes ds
  | _ :: ds => prototypes ds

/-- A type written as one word. -/
def Ty.word (w : String) : Ty := ⟨[w], false⟩

/-- The external interface as the specification lists it (section 6), in its order:
`NextMode(int)`, `LEDDrawArray(char[], byte, byte)`, `IsNight() -> boolean`,
`SayTemperature()`, `SayTime()`, `ShowTime()`, `ShowTemperature()`, `loadFont(byte)`,
`loadSentence(byte)`, `EEPROMClearMemory()`, `EEPROMWriteLong(int, long)`,
`EEPROMReadLong(int) -> long`; a function listed without `->` returns `void`. -/
def specInterface : List Signature :=
  [ ⟨"NextMode", [Ty.word "int"], Ty.word "void"⟩,
    ⟨"LEDDrawArray", [⟨["char"], true⟩, Ty.word "byte", Ty.word "byte"], Ty.word "void"⟩,
    ⟨"IsNight", [], Ty.word "boolean"⟩,
    ⟨"SayTemperature", [], Ty.word "void"⟩,
    ⟨"SayTime", [], Ty.word "void"⟩,
    ⟨"ShowTime", [], Ty.word "void"⟩,
    ⟨"ShowTemperature", [], Ty.word "void"⟩,
    ⟨"loadFont", [Ty.word "byte"], Ty.word "void"⟩,
    ⟨"loadSentence", [Ty.word "byte"], Ty.word "void"⟩,
    ⟨"EEPROMClearMemory", [], Ty.word "void"⟩,
    ⟨"EEPROMWriteLong", [Ty.word "int", Ty.word "long"], Ty.word "void"⟩,
    ⟨"EEPROMReadLong", [Ty.word "int"], Ty.word "long"⟩ ]

/-- A function defined with a body. -/
structure FunDef where
  name : String
  ret : Ty
  params : List Param
  body : List Tok
deriving DecidableEq, Repr

/-- The functions that are defined with a body. -/
def definitions : List Decl → List FunDef
  | [] => []
  | Decl.fundef _ ret name ps body :: ds => ⟨name, ret, ps, body⟩ :: definitions ds
  | _ :: ds => definitions ds

/-- The statements of a body: the token runs that end in `;` (and what is left after
the last `;`, if anything). -/
def statements : List Tok → List Tok → List (List Tok)
  | [], [] => []
  | [], t :: cur => [t :: cur]
  | t :: ts, cur =>
    if t = Tok.punct ';' then (cur ++ [t]) :: statements ts [] else statements ts (cur ++ [t])

/-- Run statements one after the other on a program state, `exec` giving the effect
of one statement. -/
def runStatements {σ : Type} (exec : List Tok → σ → σ) : List (List Tok) → σ → σ
  | [], s => s
  | st :: rest, s => runStatements exec rest (exec st s)

/-- The effect of calling a function on the program state: its body is run. -/
def call {σ : Type} (exec : List Tok → σ → σ) (f : FunDef) (s : σ) : σ :=
  runStatements exec (statements f.body []) s

/-- The typedef names with the line that declares them and the type they denote. -/
def typedefs : List Decl → List (Nat × String × Ty)
  | [] => []
  | Decl.typedef l n ty :: ds => (l, n, ty) :: typedefs ds
  | _ :: ds => typedefs ds

/-- The type an alias denotes. -/
def aliasOf : List (Nat × String × Ty) → String → Option Ty
  | [], _ => none
  | (_, n, ty) :: rest, w => if n == w then some ty else aliasOf rest w

/-- Modelled from the spec: "byte-width".  The number of bits of a `char` is fixed by
the toolchain of the board (`CHAR_BIT` of its `limits.h`), which is not in the
repository; for the Arduino Uno named on the header's first line it is 8. -/
def charBits : Nat := 8

/-- Modelled from the spec: the width of `int`, to which operands narrower than `int`
are promoted before arithmetic; fixed by the toolchain of the board, 16 on the
Arduino Uno. -/
def intBits : Nat := 16

/-- Width in bits of the unsigned character type; `none` for every other type (the
header aliases no other). -/
def unsignedBits (t : Ty) : Option Nat :=
  if t = ⟨["unsigned", "char"], false⟩ then some charBits else none

/-- The type the header makes `byte` an alias of. -/
def byteAlias : Option Ty :=
  match headerDecls with
  | some ds => aliasOf (typedefs ds) "byte"
  | none => none

/-- Width of the type `byte` as the header declares it. -/
def byteBits : Option Nat :=
  match byteAlias with
  | some t => unsignedBits t
  | none => none

/-- The values of type `byte`. -/
def isByteValue (v : Int) : Prop :=
  match byteBits with
  | some n => 0 ≤ v ∧ v < 2 ^ n
  | none => False

/-- Conversion of an integer to `byte`: to an unsigned type of `n` bits a value is
converted modulo `2 ^ n`. -/
def toByte (z : Int) : Option Int :=
  match byteBits with
  | some n => some (z % 2 ^ n)
  | none => none

/-- Addition in `int`: defined when the sum is representable. -/
def intAdd (a b : Int) : Option Int :=
  if -(2 ^ (intBits - 1)) ≤ a + b ∧ a + b < 2 ^ (intBits - 1) then some (a + b) else none

/-- The sum of two `byte` values stored back into a `byte`: the operands are promoted
to `int`, added there, and the result is converted to `byte`. -/
def byteAdd (a b : Int) : Option Int :=
  match intAdd a b with
  | some z => toByte z
  | none => none

/-- Whether a type is usable at a line: built-in specifiers only, or one word that a
typedef on an earlier line declares. -/
def typeKnown (tds : List (Nat × String)) (line : Nat) (t : Ty) : Bool :=
  match t.specs with
  | [] => false
  | [w] => builtinSpecifiers.contains w || tds.any fun p => p.2 == w && p.1 < line
  | ws => ws.all fun w => builtinSpecifiers.contains w

/-- The types of a list that are not usable at a line, with that line. -/
def unknownAt (tds : List (Nat × String)) (line : Nat) : List Ty → List (Nat × List String)
  | [] => []
  | t :: ts =>
    if typeKnown tds line t then unknownAt tds line ts
    else (line, t.specs) :: unknownAt tds line ts

/-- Walk the declarations in order, collecting every use of a type name that is
neither built in nor declared by a typedef on an earlier line.  A declaration that
could not be read is reported with an empty name. -/
def undeclaredUses : List Decl → List (Nat × String) → List (Nat × List String)
  | [], _ => []
  | Decl.typedef l n ty :: ds, tds => unknownAt tds l [ty] ++ undeclaredUses ds (tds ++ [(l, n)])
  | Decl.proto l ret _ ps :: ds, tds =>
    unknownAt tds l (ret :: paramTypes ps) ++ undeclaredUses ds tds
  | Decl.fundef l ret _ ps _ :: ds, tds =>
    unknownAt tds l (ret :: paramTypes ps) ++ undeclaredUses ds tds
  | Decl.other l _ :: ds, tds => (l, []) :: undeclaredUses ds tds

/-- The undeclared type uses of the header. -/
def headerUndeclared : Option (List (Nat × List String)) :=
  match headerDecls with
  | some ds => some (undeclaredUses ds [])
  | none => none

/-- Whether a token sequence is one argument of an invocation: its parentheses are
matched and no comma stands outside them. -/
def argOK : List Tok → Nat → Bool
  | [], d => d == 0
  | Tok.punct c :: ts, d =>
    if c == '(' then argOK ts (d + 1)
    else if c == ')' then
      match d with
      | 0 => false
      | e + 1 => argOK ts e
    else if c == ',' && d == 0 then false
    else argOK ts d
  | _ :: ts, d => argOK ts d

/-- The definitions in force after the first `k` lines of the header. -/
def tableAfterLine (k : Nat) : List Defn :=
  (runDefines (defines (headerLines.take k)) PPState.init).table

/-! ## What the header evaluates to -/

/-- The `#define` directives of the header, as read from its text. -/
theorem defines_headerLines :
    defines headerLines =
      [ (2, ⟨"ARDUINO", none, [Tok.number "101"]⟩),
        (3, ⟨"__AVR_ATmega328P__", none, []⟩),
        (4, ⟨"F_CPU", none, [Tok.number "16000000L"]⟩),
        (5, ⟨"__AVR__", none, []⟩),
        (6, ⟨"__cplusplus", none, []⟩),
        (7, ⟨"__attribute__", some ["x"], []⟩),
        (8, ⟨"__inline__", none, []⟩),
        (9, ⟨"__asm__", some ["x"], []⟩),
        (10, ⟨"__extension__", none, []⟩),
        (11, ⟨"__ATTR_PURE__", none, []⟩),
        (12, ⟨"__ATTR_CONST__", none, []⟩),
        (13, ⟨"__inline__", none, []⟩),
        (14, ⟨"__asm__", none, []⟩),
        (15, ⟨"__volatile__", none, []⟩),
        (16, ⟨"__builtin_va_list", none, []⟩),
        (17, ⟨"__builtin_va_start", none, []⟩),
        (18, ⟨"__builtin_va_end", none, []⟩),
        (19, ⟨"__DOXYGEN__", none, []⟩),
        (20, ⟨"prog_void", none, []⟩),
        (21, ⟨"PGM_VOID_P", none, [Tok.ident "int"]⟩),
        (22, ⟨"NOINLINE", none,
          [Tok.ident "__attribute__", Tok.punct '(', Tok.punct '(', Tok.ident "noinline",
            Tok.punct ')', Tok.punct ')']⟩) ] := by
  decide

/-- The declarations of the header, as read from its text after preprocessing. -/
theorem headerDecls_eq :
    headerDecls = some
      [ Decl.typedef 24 "byte" ⟨["unsigned", "char"], false⟩,
        Decl.fundef 25 (Ty.word "void") "__cxa_pure_virtual" [] [],
        Decl.proto 29 (Ty.word "void") "NextMode" [⟨Ty.word "int", some "nextmode"⟩],
        Decl.proto 30 (Ty.word "void") "LEDDrawArray"
          [⟨⟨["char"], true⟩, some "bitmap"⟩, ⟨Ty.word "byte", some "offsetrow"⟩,
            ⟨Ty.word "byte", some "offsetcol"⟩],
        Decl.proto 31 (Ty.word "boolean") "IsNight" [],
        Decl.proto 32 (Ty.word "void") "SayTemperature" [],
        Decl.proto 33 (Ty.word "void") "SayTime" [],
        Decl.proto 34 (Ty.word "void") "ShowTime" [],
        Decl.proto 35 (Ty.word "void") "ShowTemperature" [],
        Decl.proto 36 (Ty.word "void") "loadFont" [⟨Ty.word "byte", some "fontindex"⟩],
        Decl.proto 37 (Ty.word "void") "loadSentence" [⟨Ty.word "byte", some "sentenceindex"⟩],
        Decl.proto 38 (Ty.word "void") "EEPROMClearMemory" [],
        Decl.proto 39 (Ty.word "void") "EEPROMWriteLong"
          [⟨Ty.word "int", some "p_address"⟩, ⟨Ty.word "long", some "p_value"⟩],
        Decl.proto 40 (Ty.word "long") "EEPROMReadLong" [⟨Ty.word "int", some "p_address"⟩] ] := by
  decide

/-- The header declares `byte` as 8 bits wide. -/
theorem byteBits_eq : byteBits = some 8 := by decide

/-- After the last `#define`, `__attribute__` is function-like with one parameter and
an empty replacement list. -/
theorem lookup_attribute :
    lookupDef headerState.table "__attribute__" = some ⟨"__attribute__", some ["x"], []⟩ := by
  decide

/-! ## Scanning an argument -/

/-- Source tokens of a concatenation. -/
theorem plain_append (xs ys : List Tok) : plain (xs ++ ys) = plain xs ++ plain ys := by
  induction xs with
  | nil => rfl
  | cons t ts ih => simp [plain, ih]

/-- Scanning a well-formed argument followed by the closing parenthesis returns that
argument whole. -/
theorem scanArgs_argument (rest : List HTok) (acc : List (List HTok)) :
    ∀ (x : List Tok) (d : Nat) (cur : List HTok), argOK x d = true →
      scanArgs (plain x ++ (Tok.punct ')', []) :: rest) d cur acc
        = some (acc ++ [cur ++ plain x], [], rest) := by
  intro x
  induction x with
  | nil =>
    intro d cur h
    have hd : d = 0 := by simpa [argOK] using h
    subst hd
    simp [plain, scanArgs]
  | cons t ts ih =>
    intro d cur h
    cases t with
    | punct c =>
      by_cases h1 : c = '('
      · subst h1
        have h2 : argOK ts (d + 1) = true := by simpa [argOK] using h
        have key := ih (d + 1) (cur ++ [(Tok.punct '(', [])]) h2
        rw [List.append_assoc, List.singleton_append] at key
        simpa [plain, scanArgs] using key
      · by_cases h2 : c = ')'
        · subst h2
          cases d with
          | zero => simp [argOK] at h
          | succ e =>
            have h3 : argOK ts e = true := by simpa [argOK] using h
            have key := ih e (cur ++ [(Tok.punct ')', [])]) h3
            rw [List.append_assoc, List.singleton_append] at key
            simpa [plain, scanArgs] using key
        · by_cases h3 : c = ',' ∧ d = 0
          · simp [argOK, h1, h2, h3] at h
          · have h4 : argOK ts d = true := by simpa [argOK, h1, h2, h3] using h
            have key := ih d (cur ++ [(Tok.punct c, [])]) h4
            rw [List.append_assoc, List.singleton_append] at key
            simpa [plain, scanArgs, h1, h2, h3] using key
    | ident n =>
      have h2 : argOK ts d = true := by simpa [argOK] using h
      have key := ih d (cur ++ [(Tok.ident n, [])]) h2
      rw [List.append_assoc, List.singleton_append] at key
      simpa [plain, scanArgs] using key
    | number n =>
      have h2 : argOK ts d = true := by simpa [argOK] using h
      have key := ih d (cur ++ [(Tok.number n, [])]) h2
      rw [List.append_assoc, List.singleton_append] at key
      simpa [plain, scanArgs] using key
    | strLit n =>
      have h2 : argOK ts d = true := by simpa [argOK] using h
      have key := ih d (cur ++ [(Tok.strLit n, [])]) h2
      rw [List.append_assoc, List.singleton_append] at key
      simpa [plain, scanArgs] using key
    | ws =>
      have h2 : argOK ts d = true := by simpa [argOK] using h
      have key := ih d (cur ++ [(Tok.ws, [])]) h2
      rw [List.append_assoc, List.singleton_append] at key
      simpa [plain, scanArgs] using key

/-! ## The placation definitions that do erase -/

/-- With the table in force after the last `#define`, `__attribute__(x)` expands to
nothing for every argument `x`, with any positive fuel. -/
theorem attribute_erased (x : List Tok) (hx : argOK x 0 = true) (n : Nat) :
    expandToks headerState.table (n + 1)
      (Tok.ident "__attribute__" :: Tok.punct '(' :: (x ++ [Tok.punct ')'])) = some [] := by
  have hs := scanArgs_argument [] [] x 0 [] hx
  simp only [List.nil_append] at hs
  simp [expandToks, plain, plain_append, expand, lookup_attribute, hs, bindArgs, substitute,
    addHide, strip]

/-- With the table in force after the last `#define`, each of `__inline__`,
`__extension__`, `__volatile__`, `__ATTR_PURE__`, `__ATTR_CONST__` and `prog_void`
expands to nothing, `NOINLINE` expands to nothing once its replacement is rescanned,
and `PGM_VOID_P` expands to the single token `int`. -/
theorem object_like_erased (n : Nat) :
    expandToks headerState.table (n + 1) [Tok.ident "__inline__"] = some [] ∧
    expandToks headerState.table (n + 1) [Tok.ident "__extension__"] = some [] ∧
    expandToks headerState.table (n + 1) [Tok.ident "__volatile__"] = some [] ∧
    expandToks headerState.table (n + 1) [Tok.ident "__ATTR_PURE__"] = some [] ∧
    expandToks headerState.table (n + 1) [Tok.ident "__ATTR_CONST__"] = some [] ∧
    expandToks headerState.table (n + 1) [Tok.ident "prog_void"] = some [] ∧
    expandToks headerState.table (n + 2) [Tok.ident "NOINLINE"] = some [] ∧
    expandToks headerState.table (n + 2) [Tok.ident "PGM_VOID_P"] = some [Tok.ident "int"] := by
  cases n <;> exact ⟨rfl, rfl, rfl, rfl, rfl, rfl, rfl, rfl⟩

/-! ## The claims -/

/-- C1: the functions the header declares without a body are exactly the twelve of the
specification's external interface, each with the listed name, ordered parameter types
and return type; the twelve are pairwise distinct. -/
theorem forward_declarations_match_interface :
    headerDecls.map prototypes = some specInterface ∧
    specInterface.length = 12 ∧ specInterface.Nodup := by
  decide

/-- C2: the header defines exactly one function with a body, `__cxa_pure_virtual`; it
has no parameter, returns `void`, and calling it leaves every program state as it was,
whatever the effect of a statement is. -/
theorem cxa_pure_virtual_does_nothing :
    ∃ f : FunDef, headerDecls.map definitions = some [f] ∧
      f.name = "__cxa_pure_virtual" ∧ f.params = [] ∧ f.ret = Ty.word "void" ∧
      ∀ (σ : Type) (exec : List Tok → σ → σ) (s : σ), call exec f s = s := by
  refine ⟨⟨"__cxa_pure_virtual", Ty.word "void", [], []⟩, by decide, rfl, rfl, rfl, ?_⟩
  intro σ exec s
  rfl

/-- C3: the header makes `byte` an alias of `unsigned char`; the values of `byte` are
the integers 0..255; and for byte values `a` and `b` the sum stored back into a `byte`
is defined and equals `(a + b) % 256`, itself a byte value. -/
theorem byte_add_is_mod_256 (a b : Int) (ha : isByteValue a) (hb : isByteValue b) :
    byteAlias = some ⟨["unsigned", "char"], false⟩ ∧
    (∀ v : Int, isByteValue v ↔ (0 ≤ v ∧ v ≤ 255)) ∧
    byteAdd a b = some ((a + b) % 256) ∧
    isByteValue ((a + b) % 256) := by
  simp only [isByteValue, byteBits_eq] at ha hb
  refine ⟨by decide, ?_, ?_, ?_⟩
  · intro v
    simp only [isByteValue, byteBits_eq]
    constructor
    · rintro ⟨h0, h1⟩
      exact ⟨h0, by omega⟩
    · rintro ⟨h0, h1⟩
      exact ⟨h0, by omega⟩
  · have hr : -(2 ^ (intBits - 1)) ≤ a + b ∧ a + b < 2 ^ (intBits - 1) := by
      simp only [intBits]
      constructor <;> omega
    simp only [byteAdd, intAdd, hr, and_self, if_true, toByte, byteBits_eq]
    norm_num
  · simp only [isByteValue, byteBits_eq]
    constructor <;> omega

/-- Witness for C3 at `a = 200`, `b = 100`: both are byte values and their byte sum
is 44. -/
theorem byte_add_is_mod_256_witness :
    isByteValue 200 ∧ isByteValue 100 ∧ byteAdd 200 100 = some ((200 + 100) % 256) :=
  have h1 : isByteValue 200 := by simp [isByteValue, byteBits_eq]
  have h2 : isByteValue 100 := by simp [isByteValue, byteBits_eq]
  ⟨h1, h2, (byte_add_is_mod_256 200 100 h1 h2).2.2.1⟩

/-- C4 as stated fails: line 6 of the header is `#define __cplusplus`, a name the
language predefines, so it is not the case that the header's `#define` directives
produce no clash and define no predefined name. -/
theorem define_of_cplusplus_breaks_claim :
    (6, (⟨"__cplusplus", none, []⟩ : Defn)) ∈ defines headerLines ∧
    "__cplusplus" ∈ predefinedNames ∧
    ¬ (headerState.clashes = [] ∧ headerState.reserved = []) := by
  decide

/-- C4 amended: processing the header's `#define` directives in order, the only
predefined name that is defined is `__cplusplus`, on line 6, and no name other than
`__asm__` is redefined with a definition that differs from the one in force (the
second `#define __inline__`, on line 13, repeats the one of line 8). -/
theorem defines_reserved_only_cplusplus :
    headerState.reserved = [(6, "__cplusplus")] ∧
    (headerState.clashes.all fun c => c.2 == "__asm__") = true ∧
    (lookupDef (tableAfterLine 12) "__inline__" = some ⟨"__inline__", none, []⟩ ∧
      lookupDef (tableAfterLine 13) "__inline__" = some ⟨"__inline__", none, []⟩) := by
  decide

/-- C5 fails on the code: the only use of a type name that is neither built in nor
declared by a typedef on an earlier line is `boolean`, the return type of `IsNight` on
line 31; the header's one typedef, on line 24, declares `byte` and nothing else. -/
theorem boolean_used_before_declared :
    headerUndeclared = some [(31, ["boolean"])] ∧
    headerDecls.map typedefs = some [(24, "byte", ⟨["unsigned", "char"], false⟩)] := by
  decide

/-- C6 fails on the code at `__asm__("nop")`: line 9 defines `__asm__` as function-like
with an empty replacement, and with the table in force after line 9 the invocation
expands to nothing; line 14 redefines `__asm__` as object-like, and with the table in
force after the last `#define` only the name is erased and `("nop")` is left. -/
theorem asm_invocation_keeps_parentheses (n : Nat) :
    lookupDef (tableAfterLine 9) "__asm__" = some ⟨"__asm__", some ["x"], []⟩ ∧
    expandToks (tableAfterLine 9) (n + 1)
      [Tok.ident "__asm__", Tok.punct '(', Tok.strLit "nop", Tok.punct ')'] = some [] ∧
    lookupDef headerState.table "__asm__" = some ⟨"__asm__", none, []⟩ ∧
    expandToks headerState.table (n + 4)
      [Tok.ident "__asm__", Tok.punct '(', Tok.strLit "nop", Tok.punct ')']
        = some [Tok.punct '(', Tok.strLit "nop", Tok.punct ')'] := by
  cases n <;> exact ⟨rfl, rfl, rfl, rfl⟩

end Chronos
